import Mathlib

/-!
Verification of the matching core of `src/backend/app.py` (RealMeta_Museum).

The Python source is shallowly embedded: pure helpers become Lean functions;
the `/analyze` and `/precompute` request handlers become functions from their
inputs (query fingerprint, catalog index contents, catalog metadata) to a
result value, with the HTTP/IO layer stripped away.  Machine integers are
modelled as `Nat`/`Int`; numpy float64 arithmetic on ratios of small integers
is modelled by exact rationals with round-half-to-even (the IEEE-754 default
used by Python's `round` on floats), and every concrete input evaluated in a
theorem below is chosen far from any representation boundary, so the rational
model and the float64 computation agree there.
-/

namespace RealMetaMuseum

/-- Fuel-driven popcount helper: `bitCountAux fuel n` sums the binary digits
of `n`, recursing on `fuel` so that the kernel can evaluate it.  With
`fuel ≥ n` it computes the true population count. -/
def bitCountAux : Nat → Nat → Nat
  | 0, _ => 0
  | fuel + 1, n => if n = 0 then 0 else n % 2 + bitCountAux fuel (n / 2)

/-- Python's `int.bit_count` for nonnegative integers: the number of ones in
the binary representation of `n`. -/
def bitCount (n : Nat) : Nat := bitCountAux n n

/-- Function `hamming_distance_int` from `app.py`: `(a ^ b).bit_count()`.  Fingerprints
produced by the program are nonnegative, so `Nat` with `Nat.xor` models the
Python integers. -/
def hamming_distance_int (a b : Nat) : Nat := bitCount (a ^^^ b)

/-- Round-half-to-even of the exact rational `n / d` (for `d > 0`), expressed
on the numerator and denominator with Euclidean division so it evaluates by
kernel reduction: `n / d` and `n % d` here are `Int.ediv`/`Int.emod`, which
for a positive divisor are floor-division and a remainder in `[0, d)`.  This
is the rounding performed by Python's `round` (and numpy) on float64 values,
stated on the exact ratio; `roundHalfEvenInt_eq` below proves it equal to
the textbook definition `roundHalfEvenQ` on `ℚ`. -/
def roundHalfEvenInt (n : ℤ) (d : ℕ) : ℤ :=
  if 2 * (n % (d : ℤ)) < (d : ℤ) then n / (d : ℤ)
  else if (d : ℤ) < 2 * (n % (d : ℤ)) then n / (d : ℤ) + 1
  else if (n / (d : ℤ)) % 2 = 0 then n / (d : ℤ) else n / (d : ℤ) + 1

/-- Round-half-to-even on `ℚ`, via the floor function: the nearest integer,
ties going to the even integer. -/
def roundHalfEvenQ (q : ℚ) : ℤ :=
  if q - (⌊q⌋ : ℚ) < 1/2 then ⌊q⌋
  else if 1/2 < q - (⌊q⌋ : ℚ) then ⌊q⌋ + 1
  else if ⌊q⌋ % 2 = 0 then ⌊q⌋ else ⌊q⌋ + 1

/-- One percent entry of `kmeans_palette`:
`int(round(100 * (counts[i] / total)))`, i.e. the round-half-even of the
exact ratio `100·c / total`. -/
def percentOf (c total : ℕ) : ℤ := roundHalfEvenInt (100 * (c : ℤ)) total

/-- The per-cluster percents of `kmeans_palette` before normalization, as a
function of the cluster sizes `counts = np.bincount(labels, minlength=k)`
(the k-means clustering itself, an external numeric routine, supplies
`counts`; the percent arithmetic is what is modelled).  `total` follows
`int(counts.sum()) if counts.sum() > 0 else 1`. -/
def kmeansPercents (counts : List ℕ) : List ℤ :=
  let total : ℕ := if 0 < counts.sum then counts.sum else 1
  counts.map (fun c => percentOf c total)

/-- The percent fields of the palette returned by `kmeans_palette`, after the
normalization step
`diff = 100 - sum(...); if palette and diff != 0: palette[0]['percent'] =
max(0, min(100, palette[0]['percent'] + diff))`. -/
def kmeansPalettePercents (counts : List ℕ) : List ℤ :=
  let ps := kmeansPercents counts
  let diff : ℤ := 100 - ps.sum
  match ps with
  | [] => []
  | p :: rest => if diff = 0 then p :: rest else (max 0 (min 100 (p + diff))) :: rest

/-- Hex digit used by `rgb_to_hex` (`'%02x'` formatting, lowercase). -/
def hexDigit (n : Nat) : Char :=
  if n < 10 then Char.ofNat (48 + n) else Char.ofNat (87 + n)

/-- Two-digit lowercase hex of a byte value (0–255), per `'%02x' % n`. -/
def byteToHex (n : Nat) : String :=
  String.mk [hexDigit (n / 16 % 16), hexDigit (n % 16)]

/-- Function `rgb_to_hex` from `kmeans_palette`: `'#%02x%02x%02x' % (r, g, b)` for the
byte-valued centroid channels (the `int32` cast of RGB centroids always lies
in 0–255). -/
def rgb_to_hex (r g b : Nat) : String :=
  "#" ++ byteToHex r ++ byteToHex g ++ byteToHex b

/-- Value `confidence` from `analyze`: `max(0.0, min(1.0, 1.0 - best_dist / 64.0))`. -/
def confidence (d : ℕ) : ℚ := max 0 (min 1 (1 - (d : ℚ) / 64))

/-- Constant `MAX_DISTANCE` from `analyze`: the match threshold, 40. -/
def MAX_DISTANCE : ℕ := 40

/-- The value `64·confidence(d)` as an integer: `max 0 (min 64 (64 - d))`.  The lemma
`confidence_eq` proves `confidence d = clampedConfNum d / 64`; the integer
form lets the response value evaluate by kernel reduction. -/
def clampedConfNum (d : ℕ) : ℤ := max 0 (min 64 (64 - (d : ℤ)))

/-- Python `round(confidence, 4)` reported in the response, scaled by `10⁴`
(i.e. the integer numerator of the rounded value over `10⁴`):
round-half-even of `confidence·10⁴ = (10⁴ · 64·confidence) / 64`. -/
def roundConfE4 (d : ℕ) : ℤ := roundHalfEvenInt (10000 * clampedConfNum d) 64

/-- Python `round(q, 6)` scaled by `10⁶`: round-half-even of
`q·10⁶ = (num·10⁶) / den` (the rounding depends only on the value of the
fraction, so the raw numerator/denominator pair is fine). -/
def roundE6 (q : ℚ) : ℤ := roundHalfEvenInt (q.num * 1000000) q.den

/-- One iteration of the best-match loop in `analyze`:
`d = hamming_distance_int(ph, emb); if best_dist is None or d < best_dist:
best_dist = d; best_id = art_id`.  The accumulator carries the running
`(best_id, best_dist)`; the `None` initial state is handled by starting the
fold from the first entry (the first iteration always installs it). -/
def bestStep (ph : Nat) (acc : String × Nat) (p : String × Nat) : String × Nat :=
  let d := hamming_distance_int ph p.2
  if d < acc.2 then (p.1, d) else acc

/-- The `(best_id, best_dist)` pair computed by the loop in `analyze` over the
index `e :: rest` — the index is a list of `(art_id, fingerprint)` pairs in
the iteration order of the Python dict (insertion order). -/
def bestOf (ph : Nat) (e : String × Nat) (rest : List (String × Nat)) : String × Nat :=
  rest.foldl (bestStep ph) (e.1, hamming_distance_int ph e.2)

/-- List `all_distances` from `analyze`: one `(id, distance)` record per index
entry, in index iteration order. -/
def distList (ph : Nat) (embeddings : List (String × Nat)) : List (String × Nat) :=
  embeddings.map (fun p => (p.1, hamming_distance_int ph p.2))

/-- Sorting step `all_distances.sort(key=lambda x: x["distance"])`: Python's sort is a
stable sort by the distance component; insertion sort with `a.2 ≤ b.2`
(inserting before the first element it is `≤`) is stable in the same sense
and therefore produces the identical list. -/
def sortByDist (l : List (String × Nat)) : List (String × Nat) :=
  List.insertionSort (fun a b => a.2 ≤ b.2) l

/-- The JSON body built at the end of `analyze`, field for field.  `palette`
and `texture_edge_density` are carried through from the descriptor stage
(their dataflow is modelled separately by `analyzeFeatureInputs`);
`has_metadata` records whether the `metadata` key is present
(`ARTWORKS.get(best_id) if matched else None` succeeded). -/
structure AnalyzeResponse where
  matched : Bool
  match_id : Option String
  match_confidence_e4 : Option ℤ
  hamming_distance : Nat
  palette : List ℤ
  texture_edge_density_e6 : ℤ
  debug_best_match : String
  debug_best_distance : Nat
  debug_threshold : Nat
  debug_top_3 : List (String × Nat)
  has_metadata : Bool
  message : Option String
  deriving DecidableEq

/-- The response body `analyze` builds on a non-empty index `e :: rest`
(`best_id`/`best_dist` from the loop, `all_distances` sorted for debug,
threshold check, confidence rounding, metadata lookup / no-match message). -/
def analyzeResponseOf (ph : Nat) (e : String × Nat) (rest : List (String × Nat))
    (artworkIds : List String) (pal : List ℤ) (tex : ℚ) : AnalyzeResponse :=
  let best := bestOf ph e rest
  let sorted := sortByDist (distList ph (e :: rest))
  let matched : Bool := best.2 ≤ MAX_DISTANCE
  let hasMeta : Bool := matched && artworkIds.contains best.1
  { matched := matched
    match_id := if matched then some best.1 else none
    match_confidence_e4 := if matched then some (roundConfE4 best.2) else none
    hamming_distance := best.2
    palette := pal
    texture_edge_density_e6 := roundE6 tex
    debug_best_match := best.1
    debug_best_distance := best.2
    debug_threshold := MAX_DISTANCE
    debug_top_3 := sorted.take 3
    has_metadata := hasMeta
    message := if hasMeta then none
      else some ("No match found. Best distance was " ++ toString best.2
        ++ " (threshold: " ++ toString MAX_DISTANCE
        ++ "). Try a clearer photo or ensure /precompute was run.") }

/-- The `/analyze` handler from the point where features are available:
given the query fingerprint `ph`, the loaded index `embeddings` (in dict
iteration order), the set of artwork ids with metadata (`ARTWORKS`), and the
already-computed palette percents and texture density, produce either the
empty-index error (`if not embeddings`) or the response body. -/
def analyzeModel (ph : Nat) (embeddings : List (String × Nat))
    (artworkIds : List String) (pal : List ℤ) (tex : ℚ) :
    Except String AnalyzeResponse :=
  match embeddings with
  | [] => Except.error "No embeddings found. Run /precompute first."
  | e :: rest => Except.ok (analyzeResponseOf ph e rest artworkIds pal tex)

/-- The `/precompute` handler: the guard `if not ARTWORKS: return
jsonify({"status": "error", "message": "artworks.json missing or empty"}),
400` rejects an empty catalog before anything is computed or persisted.
Otherwise, for each catalog entry `(art_id, meta.get('image'))` in
`ARTWORKS` iteration order, the loop skips entries with no / empty image
filename (`if not filename: continue`), skips entries whose file is missing
or whose bytes fail to decode (`if not os.path.exists(path): continue` and
the `try/except: continue` around open/convert/phash, both folded into
`loadImage` returning `none`), and otherwise records the computed
fingerprint and bumps `count`.  On success, returns the mapping handed to
`save_embeddings` and the reported `count`. -/
def precomputeModel (artworks : List (String × Option String))
    (loadImage : String → Option Nat) : Except String (List (String × Nat) × Nat) :=
  if artworks = [] then Except.error "artworks.json missing or empty"
  else Except.ok (artworks.foldl
    (fun acc entry =>
      match entry.2 with
      | none => acc
      | some filename =>
        if filename = "" then acc
        else
          match loadImage filename with
          | none => acc
          | some ph => (acc.1 ++ [(entry.1, ph)], acc.2 + 1))
    ([], 0))

/-- The entries of the catalog that `/precompute` successfully indexes: image
filename present and non-empty, and the image loads and hashes. -/
def validEntries (artworks : List (String × Option String))
    (loadImage : String → Option Nat) : List (String × Nat) :=
  artworks.filterMap
    (fun entry =>
      match entry.2 with
      | none => none
      | some filename =>
        if filename = "" then none
        else (loadImage filename).map (fun ph => (entry.1, ph)))

/-- Decimal digit string to number, for the model of Python `int(str)`. -/
def digitsToNat : List Char → Option Nat
  | [] => none
  | cs =>
    if cs.all Char.isDigit then
      some (cs.foldl (fun a c => 10 * a + (c.toNat - 48)) 0)
    else none

/-- Strip leading and trailing whitespace from a character list (the
`str.strip()` part of Python's `int(str)` parsing). -/
def trimChars (cs : List Char) : List Char :=
  ((cs.dropWhile Char.isWhitespace).reverse.dropWhile Char.isWhitespace).reverse

/-- Model of Python `int(v)` on the string values read back from
`embeddings.json` (which `save_embeddings` writes as decimal strings):
surrounding whitespace is ignored, an optional sign is allowed, then a
non-empty run of decimal digits; anything else raises, i.e. returns `none`.
(Digit-group underscores and non-ASCII digits, which Python also accepts,
do not occur in values the program writes and are not modelled.) -/
def pythonIntOfString (s : String) : Option Int :=
  match trimChars s.toList with
  | '+' :: cs => (digitsToNat cs).map (fun n => (n : Int))
  | '-' :: cs => (digitsToNat cs).map (fun n => -(n : Int))
  | cs => (digitsToNat cs).map (fun n => (n : Int))

/-- Function `load_embeddings` from `app.py`, applied to the parsed JSON object as an
association list in key order: `for k, v in raw.items(): try: res[k] =
int(v) except: continue`. -/
def loadEmbeddings (raw : List (String × String)) : List (String × Int) :=
  raw.filterMap (fun kv => (pythonIntOfString kv.2).map (fun n => (kv.1, n)))

/-- The image buffer as far as the preprocessing dataflow observes it: its
pixel dimensions and its EXIF orientation tag (1 = upright; tags 5–8 are the
transposed orientations whose correction swaps width and height).  The
`/analyze` entry point receives it already decoded and converted to RGB by
`decode_upload_to_image`. -/
structure PILImage where
  width : Nat
  height : Nat
  exifTag : Nat
  deriving DecidableEq

/-- Model of `ImageOps.exif_transpose`: applies the EXIF orientation so pixels are
upright and drops the orientation tag.  Tags 5–8 swap the two dimensions;
the other tags (identity, mirrors, 180° rotation) keep them. -/
def exif_transpose (img : PILImage) : PILImage :=
  if 5 ≤ img.exifTag ∧ img.exifTag ≤ 8 then
    { width := img.height, height := img.width, exifTag := 1 }
  else
    { width := img.width, height := img.height, exifTag := 1 }

/-- Function `preprocess_image_for_matching` from `app.py`: EXIF auto-orientation,
RGB conversion (dataflow-invisible here: the input is already RGB), then a
downscale so the longest side is at most `max_size`, preserving aspect
ratio.  `int(w * scale)` with `scale = max_size / float(max_dim)` is modelled
by truncating natural division `w * max_size / max_dim` (exact at every
concrete input used below). -/
def preprocess_image_for_matching (img : PILImage) (max_size : Nat) : PILImage :=
  let img := exif_transpose img
  let w := img.width
  let h := img.height
  let maxDim := max w h
  if max_size < maxDim then
    { width := w * max_size / maxDim, height := h * max_size / maxDim, exifTag := 1 }
  else img

/-- The buffers `analyze` actually feeds to the three extractors, from the
source: `compute_phash_from_image(pil_img)` preprocesses internally before
hashing (lines 82–85), while `kmeans_palette(pil_img, k=5)` and
`texture_edge_density(pil_img)` receive the raw decoded image (lines
281, 285).  Result order: (fingerprint input, palette input, texture input). -/
def analyzeFeatureInputs (img : PILImage) : PILImage × PILImage × PILImage :=
  (preprocess_image_for_matching img 512, img, img)

/-- Modelled from the spec: the §2 control-flow pipeline "raw bytes →
ImagePreprocessor → canonical buffer → {FingerprintExtractor,
PaletteExtractor, TextureAnalyzer}", under which all three extractors
consume the same canonical (preprocessed) buffer. -/
def specFeatureInputs (img : PILImage) : PILImage × PILImage × PILImage :=
  let canonical := preprocess_image_for_matching img 512
  (canonical, canonical, canonical)

/-! ### Helper lemmas -/

theorem bitCountAux_le (fuel : Nat) :
    ∀ n k : Nat, n ≤ fuel → n < 2 ^ k → bitCountAux fuel n ≤ k := by
  induction fuel with
  | zero =>
    intro n k hn _
    have : n = 0 := Nat.le_zero.mp hn
    subst this
    simp [bitCountAux]
  | succ fuel ih =>
    intro n k hn hk
    by_cases h0 : n = 0
    · simp [bitCountAux, h0]
    · cases k with
      | zero =>
        have h1 : n < 1 := by simpa using hk
        exact absurd (Nat.lt_one_iff.mp h1) h0
      | succ k =>
        have hdiv : n / 2 ≤ fuel := by
          have h2 : n / 2 < n := Nat.div_lt_self (Nat.pos_of_ne_zero h0) Nat.one_lt_two
          omega
        have hlt : n / 2 < 2 ^ k := by
          rw [Nat.div_lt_iff_lt_mul (by omega : 0 < 2)]
          calc n < 2 ^ (k + 1) := hk
            _ = 2 ^ k * 2 := by rw [Nat.pow_succ]
        have hmod : n % 2 ≤ 1 := by omega
        have := ih (n / 2) k hdiv hlt
        simp only [bitCountAux, h0, if_false]
        omega

theorem bitCount_le (n k : Nat) (h : n < 2 ^ k) : bitCount n ≤ k :=
  bitCountAux_le n n k (Nat.le_refl n) h

theorem hamming_distance_self (a : Nat) : hamming_distance_int a a = 0 := by
  simp [hamming_distance_int, Nat.xor_self, bitCount, bitCountAux]

theorem roundHalfEvenInt_nonneg (n : ℤ) (d : ℕ) (hn : 0 ≤ n) :
    0 ≤ roundHalfEvenInt n d := by
  have hf : (0 : ℤ) ≤ n / (d : ℤ) := Int.ediv_nonneg hn (Int.natCast_nonneg d)
  unfold roundHalfEvenInt
  split_ifs <;> omega

theorem percentOf_nonneg (c total : ℕ) : 0 ≤ percentOf c total :=
  roundHalfEvenInt_nonneg _ _ (by positivity)

/-- The integer-pair rounding agrees with the textbook round-half-even on
`ℚ`: for `d > 0`, `roundHalfEvenInt n d` rounds the exact ratio `n / d`. -/
theorem roundHalfEvenInt_eq (n : ℤ) (d : ℕ) (hd : 0 < d) :
    roundHalfEvenInt n d = roundHalfEvenQ ((n : ℚ) / (d : ℚ)) := by
  have hdq : (0 : ℚ) < (d : ℚ) := by exact_mod_cast hd
  have hfl : ⌊((n : ℚ) / (d : ℚ))⌋ = n / (d : ℤ) := Rat.floor_intCast_div_natCast n d
  have hfrac : (n : ℚ) / (d : ℚ) - (⌊((n : ℚ) / (d : ℚ))⌋ : ℚ)
      = ((n % (d : ℤ) : ℤ) : ℚ) / (d : ℚ) := by
    rw [hfl, Int.emod_def]
    push_cast
    field_simp
  have hlt : ((n : ℚ) / (d : ℚ) - (⌊((n : ℚ) / (d : ℚ))⌋ : ℚ) < 1/2)
      ↔ (2 * (n % (d : ℤ)) < (d : ℤ)) := by
    rw [hfrac, div_lt_div_iff₀ hdq (by norm_num : (0 : ℚ) < 2), one_mul, mul_comm]
    exact_mod_cast Iff.rfl
  have hgt : (1/2 < (n : ℚ) / (d : ℚ) - (⌊((n : ℚ) / (d : ℚ))⌋ : ℚ))
      ↔ ((d : ℤ) < 2 * (n % (d : ℤ))) := by
    rw [hfrac, div_lt_div_iff₀ (by norm_num : (0 : ℚ) < 2) hdq, one_mul, mul_comm]
    exact_mod_cast Iff.rfl
  rw [hfl] at hlt hgt
  unfold roundHalfEvenInt roundHalfEvenQ
  simp only [hfl, hlt, hgt]

/-- Lemma: `percentOf` is the round-half-even of the exact rational
`100 · c / total`. -/
theorem percentOf_eq (c total : ℕ) (h : 0 < total) :
    percentOf c total = roundHalfEvenQ ((100 * (c : ℚ)) / (total : ℚ)) := by
  unfold percentOf
  rw [roundHalfEvenInt_eq _ _ h]
  norm_num

/-- The response's integer confidence numerator matches `confidence`:
`confidence d = clampedConfNum d / 64`. -/
theorem confidence_eq (d : ℕ) : confidence d = ((clampedConfNum d : ℤ) : ℚ) / 64 := by
  unfold confidence clampedConfNum
  push_cast
  rw [← max_div_div_right (by norm_num : (0 : ℚ) ≤ 64),
    ← min_div_div_right (by norm_num : (0 : ℚ) ≤ 64)]
  norm_num [sub_div]

/-! ### Claim theorems -/

/-- C8: for 64-bit fingerprints `a`, `b` (as produced by the perceptual hash
and written to the store), `hamming_distance_int` satisfies
`distance(a,a) = 0`, `distance(a,b) = distance(b,a)`, and
`distance(a,b) ∈ [0,64]` (the lower bound holds by the `Nat` codomain). -/
theorem hamming_distance_metric_props (a b : Nat) (ha : a < 2 ^ 64) (hb : b < 2 ^ 64) :
    hamming_distance_int a a = 0 ∧
    hamming_distance_int a b = hamming_distance_int b a ∧
    hamming_distance_int a b ≤ 64 := by
  refine ⟨hamming_distance_self a, ?_, ?_⟩
  · simp [hamming_distance_int, Nat.xor_comm]
  · exact bitCount_le _ 64 (Nat.xor_lt_two_pow ha hb)

/-- Witness for C8 at the concrete fingerprints 5 and 9. -/
theorem hamming_distance_metric_props_witness :
    ((5 : Nat) < 2 ^ 64 ∧ (9 : Nat) < 2 ^ 64) ∧
    (hamming_distance_int 5 5 = 0 ∧
      hamming_distance_int 5 9 = hamming_distance_int 9 5 ∧
      hamming_distance_int 5 9 ≤ 64) :=
  ⟨⟨by decide, by decide⟩, hamming_distance_metric_props 5 9 (by decide) (by decide)⟩

/-- C4: the confidence is the clamp `max 0 (min 1 (1 - d/64))`, is
monotonically non-increasing in the distance, equals 1 at distance 0 and
equals 0 at distance 64. -/
theorem confidence_clamp_props (d d' : ℕ) (h : d ≤ d') :
    confidence d' ≤ confidence d ∧
    confidence 0 = 1 ∧
    confidence 64 = 0 ∧
    ∀ e : ℕ, confidence e = max 0 (min 1 (1 - (e : ℚ) / 64)) := by
  refine ⟨?_, by norm_num [confidence], by norm_num [confidence], fun e => rfl⟩
  unfold confidence
  have hc : (d : ℚ) ≤ (d' : ℚ) := by exact_mod_cast h
  have hsub : 1 - (d' : ℚ) / 64 ≤ 1 - (d : ℚ) / 64 := by gcongr
  exact max_le_max (le_refl 0) (min_le_min (le_refl 1) hsub)

/-- Witness for C4 at distances 0 and 64. -/
theorem confidence_clamp_props_witness :
    (0 : ℕ) ≤ 64 ∧
    (confidence 64 ≤ confidence 0 ∧
      confidence 0 = 1 ∧
      confidence 64 = 0 ∧
      ∀ e : ℕ, confidence e = max 0 (min 1 (1 - (e : ℚ) / 64))) :=
  ⟨by decide, confidence_clamp_props 0 64 (by decide)⟩

/-- C5: with an empty catalog index, `analyze` returns the explicit
empty-index error (a distinct error value, not a match result and not a
"no match found" response). -/
theorem empty_index_yields_error (ph : Nat) (ids : List String)
    (pal : List ℤ) (tex : ℚ) :
    analyzeModel ph [] ids pal tex =
      Except.error "No embeddings found. Run /precompute first." := rfl

/-- C2 (divergence witness): with the index `[("b", 0), ("a", 0)]` — both
entries tied at Hamming distance 0 from the query fingerprint 0 — `analyze`
selects `"b"`, the first entry in the mapping's iteration order, not the
lexicographically smallest id `"a"`. -/
theorem tie_break_follows_iteration_order :
    hamming_distance_int 0 0 = 0 ∧
    (analyzeModel 0 [("b", 0), ("a", 0)] ["a", "b"] [] 0).map
        (fun r => (r.match_id, r.debug_best_match)) =
      Except.ok (some "b", "b") :=
  ⟨rfl, rfl⟩

/-- C1 (failure witness): for k = 5 clusters over the 200×200 = 40000-sample
canvas, the cluster sizes `[160, 9840, 9840, 9840, 10320]` give raw percents
`[0, 25, 25, 25, 26]` (exact ratios 0.4, 24.6, 24.6, 24.6, 25.8, all far
from rounding boundaries, so float64 agrees), which sum to 101; the
correction `max(0, min(100, palette[0] + diff))` clamps `0 + (-1)` to 0, so
the returned percents still sum to 101, not 100. -/
theorem palette_percent_sum_counterexample :
    (kmeansPalettePercents [160, 9840, 9840, 9840, 10320]).sum = 101 ∧
    (kmeansPalettePercents [160, 9840, 9840, 9840, 10320]).sum ≠ 100 := by
  constructor
  · decide
  · decide

/-- C1 (amended): the percents of the returned palette sum to exactly 100
whenever the designated swatch's adjusted percent `palette[0] + diff` is
nonnegative (the upper clamp at 100 can never cut, since all percents are
nonnegative); when the adjustment would drive it below 0 the clamp fires and
the sum stays above 100. -/
theorem palette_percent_sum_100 (counts : List ℕ) (hne : counts ≠ [])
    (h : 0 ≤ (kmeansPercents counts).headI + (100 - (kmeansPercents counts).sum)) :
    (kmeansPalettePercents counts).sum = 100 := by
  obtain ⟨c, cs, rfl⟩ : ∃ c cs, counts = c :: cs := by
    cases counts with
    | nil => exact absurd rfl hne
    | cons c cs => exact ⟨c, cs, rfl⟩
  simp only [kmeansPercents, kmeansPalettePercents, List.map_cons, List.headI,
    List.sum_cons] at h ⊢
  set T : ℕ := if 0 < c + cs.sum then c + cs.sum else 1 with hT
  have hrest : 0 ≤ (cs.map (fun x => percentOf x T)).sum := by
    apply List.sum_nonneg
    intro x hx
    simp only [List.mem_map] at hx
    obtain ⟨y, _, rfl⟩ := hx
    exact percentOf_nonneg y T
  by_cases hd :
      (100 : ℤ) - (percentOf c T + (cs.map (fun x => percentOf x T)).sum) = 0
  · rw [if_pos hd]
    simp only [List.sum_cons]
    omega
  · rw [if_neg hd]
    simp only [List.sum_cons]
    omega

/-- Witness for C1 (amended) at the uniform cluster sizes
`[8000, 8000, 8000, 8000, 8000]` (each exactly 20%, no rounding error). -/
theorem palette_percent_sum_100_witness :
    (([8000, 8000, 8000, 8000, 8000] : List ℕ) ≠ [] ∧
      0 ≤ (kmeansPercents [8000, 8000, 8000, 8000, 8000]).headI +
        (100 - (kmeansPercents [8000, 8000, 8000, 8000, 8000]).sum)) ∧
    (kmeansPalettePercents [8000, 8000, 8000, 8000, 8000]).sum = 100 :=
  ⟨⟨by decide, by decide⟩,
    palette_percent_sum_100 [8000, 8000, 8000, 8000, 8000] (by decide) (by decide)⟩

/-- The `/precompute` loop with any starting accumulator appends exactly the
valid entries and counts them. -/
theorem precompute_foldl (loadImage : String → Option Nat) :
    ∀ (l : List (String × Option String)) (acc : List (String × Nat) × Nat),
      l.foldl
        (fun acc entry =>
          match entry.2 with
          | none => acc
          | some filename =>
            if filename = "" then acc
            else
              match loadImage filename with
              | none => acc
              | some ph => (acc.1 ++ [(entry.1, ph)], acc.2 + 1)) acc
        = (acc.1 ++ validEntries l loadImage, acc.2 + (validEntries l loadImage).length) := by
  intro l
  induction l with
  | nil => intro acc; simp [validEntries]
  | cons e l ih =>
    intro acc
    rw [List.foldl_cons]
    match he : e.2 with
    | none =>
      simp only [validEntries, List.filterMap_cons, he]
      exact ih acc
    | some filename =>
      by_cases hf : filename = ""
      · simp only [validEntries, List.filterMap_cons, he, hf, if_pos rfl]
        simpa [hf] using ih acc
      · match hl : loadImage filename with
        | none =>
          simp only [validEntries, List.filterMap_cons, he, hl, if_neg hf, Option.map_none']
          simpa [hf, hl] using ih acc
        | some ph =>
          simp only [validEntries, List.filterMap_cons, he, hl, if_neg hf, Option.map_some']
          rw [ih (acc.1 ++ [(e.1, ph)], acc.2 + 1)]
          simp only [validEntries, List.append_assoc, List.singleton_append,
            List.length_cons, Prod.mk.injEq]
          exact ⟨trivial, by omega⟩

/-- C6 (failure witness): for the empty catalog — the N = 0, M = 0 instance
of the claim — `/precompute` does not complete the rebuild with count = 0:
the `if not ARTWORKS` guard returns the "artworks.json missing or empty"
error and nothing is persisted. -/
theorem precompute_empty_catalog_errors :
    precomputeModel [] (fun _ => none) = Except.error "artworks.json missing or empty" ∧
    precomputeModel [] (fun _ => none) ≠ Except.ok ([], 0) :=
  ⟨rfl, fun h => Except.noConfusion h⟩

/-- C6 (amended): for every NON-EMPTY catalog (the `if not ARTWORKS` guard
rejects an empty one with an error before anything runs), `/precompute` —
which runs every entry inside `try/except` and so never raises — indexes
exactly the catalog entries whose image reference is present, non-empty,
and loads and hashes successfully, the broken entries excluded, and the
reported `count` is exactly the number of indexed entries. -/
theorem precompute_indexes_exactly_valid (artworks : List (String × Option String))
    (loadImage : String → Option Nat) (hne : artworks ≠ []) :
    precomputeModel artworks loadImage
      = Except.ok (validEntries artworks loadImage,
          (validEntries artworks loadImage).length) := by
  unfold precomputeModel
  rw [if_neg hne, precompute_foldl loadImage artworks ([], 0)]
  simp

/-- Witness for C6 (amended) at a two-entry catalog with one valid image and
one missing reference: the rebuild indexes exactly `[("a", 7)]` and reports
count 1. -/
theorem precompute_indexes_exactly_valid_witness :
    ([("a", some "a.jpg"), ("b", none)] : List (String × Option String)) ≠ [] ∧
    validEntries [("a", some "a.jpg"), ("b", none)]
        (fun f => if f = "a.jpg" then some 7 else none) = [("a", 7)] ∧
    precomputeModel [("a", some "a.jpg"), ("b", none)]
        (fun f => if f = "a.jpg" then some 7 else none)
      = Except.ok (validEntries [("a", some "a.jpg"), ("b", none)]
            (fun f => if f = "a.jpg" then some 7 else none),
          (validEntries [("a", some "a.jpg"), ("b", none)]
            (fun f => if f = "a.jpg" then some 7 else none)).length) :=
  ⟨by decide, rfl,
    precompute_indexes_exactly_valid [("a", some "a.jpg"), ("b", none)]
      (fun f => if f = "a.jpg" then some 7 else none) (by decide)⟩

/-- A `filterMap` together with an element sent to `none` is strictly
shorter than its input list. -/
theorem length_filterMap_lt {α β : Type} (f : α → Option β) :
    ∀ l : List α, (∃ a ∈ l, f a = none) → (l.filterMap f).length < l.length := by
  intro l h
  induction l with
  | nil => simp at h
  | cons a l ih =>
    rcases h with ⟨b, hb, hfb⟩
    rcases List.mem_cons.mp hb with rfl | hb'
    · rw [List.filterMap_cons, hfb]
      exact Nat.lt_succ_of_le (List.length_filterMap_le f l)
    · rw [List.filterMap_cons]
      cases hf : f a with
      | none => exact Nat.lt_succ_of_le (List.length_filterMap_le f l)
      | some b' =>
        have := ih ⟨b, hb', hfb⟩
        simpa using Nat.succ_lt_succ this

/-- C9: when the persisted store contains an entry whose value fails to
parse as an integer, `load_embeddings` raises nothing and returns an index
in which every entry comes from a successfully parsed store entry (no
placeholder for the bad one), and which has strictly fewer entries than the
store. -/
theorem load_embeddings_drops_unparsable (raw : List (String × String))
    (h : ∃ p ∈ raw, pythonIntOfString p.2 = none) :
    (∀ q ∈ loadEmbeddings raw, ∃ p ∈ raw, p.1 = q.1 ∧ pythonIntOfString p.2 = some q.2) ∧
    (loadEmbeddings raw).length < raw.length := by
  constructor
  · intro q hq
    unfold loadEmbeddings at hq
    rw [List.mem_filterMap] at hq
    obtain ⟨p, hp, hpq⟩ := hq
    rcases hparse : pythonIntOfString p.2 with _ | n
    · rw [hparse] at hpq
      simp at hpq
    · rw [hparse] at hpq
      simp only [Option.map_some', Option.some.injEq] at hpq
      refine ⟨p, hp, ?_, ?_⟩
      · rw [← hpq]
      · rw [hparse, ← hpq]
  · apply length_filterMap_lt
    obtain ⟨p, hp, hnone⟩ := h
    exact ⟨p, hp, by rw [hnone]; rfl⟩

/-- Witness for C9 at the store `[("a","12"), ("b","xyz")]`: `"xyz"` fails
to parse, the loaded index is `[("a",12)]`, strictly smaller than the
store. -/
theorem load_embeddings_drops_unparsable_witness :
    (∃ p ∈ [("a", "12"), ("b", "xyz")], pythonIntOfString p.2 = none) ∧
    ((∀ q ∈ loadEmbeddings [("a", "12"), ("b", "xyz")],
        ∃ p ∈ [("a", "12"), ("b", "xyz")],
          p.1 = q.1 ∧ pythonIntOfString p.2 = some q.2) ∧
      (loadEmbeddings [("a", "12"), ("b", "xyz")]).length
        < [("a", "12"), ("b", "xyz")].length) :=
  ⟨by decide, load_embeddings_drops_unparsable [("a", "12"), ("b", "xyz")] (by decide)⟩

theorem foldl_bestStep_le_init (ph : Nat) (l : List (String × Nat)) :
    ∀ init : String × Nat, (l.foldl (bestStep ph) init).2 ≤ init.2 := by
  induction l with
  | nil => intro init; exact Nat.le_refl _
  | cons q l ih =>
    intro init
    rw [List.foldl_cons]
    refine Nat.le_trans (ih (bestStep ph init q)) ?_
    unfold bestStep
    dsimp only
    split
    · exact Nat.le_of_lt (by assumption)
    · exact Nat.le_refl _

theorem foldl_bestStep_le_mem (ph : Nat) (l : List (String × Nat)) :
    ∀ init : String × Nat, ∀ p ∈ l,
      (l.foldl (bestStep ph) init).2 ≤ hamming_distance_int ph p.2 := by
  induction l with
  | nil => intro init p hp; exact absurd hp (List.not_mem_nil p)
  | cons q l ih =>
    intro init p hp
    rw [List.foldl_cons]
    rcases List.mem_cons.mp hp with rfl | hp'
    · refine Nat.le_trans (foldl_bestStep_le_init ph l _) ?_
      unfold bestStep
      dsimp only
      split
      · exact Nat.le_refl _
      · exact Nat.le_of_not_lt (by assumption)
    · exact ih _ p hp'

theorem foldl_bestStep_attained (ph : Nat) (l : List (String × Nat)) :
    ∀ init : String × Nat,
      l.foldl (bestStep ph) init = init ∨
        ∃ p ∈ l, l.foldl (bestStep ph) init = (p.1, hamming_distance_int ph p.2) := by
  induction l with
  | nil => intro init; exact Or.inl rfl
  | cons q l ih =>
    intro init
    rw [List.foldl_cons]
    rcases ih (bestStep ph init q) with h | ⟨p, hp, hep⟩
    · rw [h]
      unfold bestStep
      dsimp only
      split
      · exact Or.inr ⟨q, List.mem_cons_self q l, rfl⟩
      · exact Or.inl rfl
    · exact Or.inr ⟨p, List.mem_cons_of_mem q hp, hep⟩

/-- Lemma: `bestOf` attains the minimum Hamming distance over the index. -/
theorem bestOf_le (ph : Nat) (e : String × Nat) (rest : List (String × Nat)) :
    ∀ p ∈ e :: rest, (bestOf ph e rest).2 ≤ hamming_distance_int ph p.2 := by
  intro p hp
  rcases List.mem_cons.mp hp with rfl | hp'
  · exact foldl_bestStep_le_init ph rest _
  · exact foldl_bestStep_le_mem ph rest _ p hp'

/-- Lemma: `bestOf` returns an actual entry of the index with its distance. -/
theorem bestOf_attained (ph : Nat) (e : String × Nat) (rest : List (String × Nat)) :
    ∃ p ∈ e :: rest, bestOf ph e rest = (p.1, hamming_distance_int ph p.2) := by
  rcases foldl_bestStep_attained ph rest (e.1, hamming_distance_int ph e.2) with h | ⟨p, hp, hep⟩
  · exact ⟨e, List.mem_cons_self e rest, h⟩
  · exact ⟨p, List.mem_cons_of_mem e hp, hep⟩

/-- C3: on a non-empty index, the `matched` flag of the `analyze` response is
true exactly when the minimum Hamming distance — `bestOf` is proven here to
be a lower bound on, and attained by, the distances of all index entries —
is at most the threshold, which is the constant 40. -/
theorem matched_iff_min_le_threshold (ph : Nat) (e : String × Nat)
    (rest : List (String × Nat)) (ids : List String) (pal : List ℤ) (tex : ℚ)
    (r : AnalyzeResponse)
    (h : analyzeModel ph (e :: rest) ids pal tex = Except.ok r) :
    (r.matched = true ↔ (bestOf ph e rest).2 ≤ 40) ∧
    (∀ p ∈ e :: rest, (bestOf ph e rest).2 ≤ hamming_distance_int ph p.2) ∧
    (∃ p ∈ e :: rest, (bestOf ph e rest).2 = hamming_distance_int ph p.2) ∧
    r.hamming_distance = (bestOf ph e rest).2 ∧
    r.debug_threshold = 40 := by
  have hr : r = analyzeResponseOf ph e rest ids pal tex := by
    have h' := h
    simp only [analyzeModel] at h'
    exact (Except.ok.inj h').symm
  subst hr
  refine ⟨?_, bestOf_le ph e rest, ?_, rfl, rfl⟩
  · simp [analyzeResponseOf, MAX_DISTANCE]
  · obtain ⟨p, hp, hep⟩ := bestOf_attained ph e rest
    exact ⟨p, hp, by rw [hep]⟩

/-- Witness for C3 at query 0 against the index `[("a", 0)]`. -/
theorem matched_iff_min_le_threshold_witness :
    analyzeModel 0 [("a", 0)] ["a"] [] 0
        = Except.ok (analyzeResponseOf 0 ("a", 0) [] ["a"] [] 0) ∧
    (((analyzeResponseOf 0 ("a", 0) [] ["a"] [] 0).matched = true
        ↔ (bestOf 0 ("a", 0) []).2 ≤ 40) ∧
      (∀ p ∈ [("a", 0)], (bestOf 0 ("a", 0) []).2 ≤ hamming_distance_int 0 p.2) ∧
      (∃ p ∈ [("a", 0)], (bestOf 0 ("a", 0) []).2 = hamming_distance_int 0 p.2) ∧
      (analyzeResponseOf 0 ("a", 0) [] ["a"] [] 0).hamming_distance
        = (bestOf 0 ("a", 0) []).2 ∧
      (analyzeResponseOf 0 ("a", 0) [] ["a"] [] 0).debug_threshold = 40) :=
  ⟨rfl, matched_iff_min_le_threshold 0 ("a", 0) [] ["a"] [] 0 _ rfl⟩

instance : IsTotal (String × Nat) (fun a b : String × Nat => a.2 ≤ b.2) :=
  ⟨fun a b => Nat.le_total a.2 b.2⟩

instance : IsTrans (String × Nat) (fun a b : String × Nat => a.2 ≤ b.2) :=
  ⟨fun _ _ _ hab hbc => Nat.le_trans hab hbc⟩

/-- C10: on a non-empty index, when the best distance exceeds the threshold
40, the response still reports the nearest entry's Hamming distance
(`hamming_distance`), exposes the nearest entry's id (`debug.best_match`)
and the top-3 candidate list (`debug.top_3`: the three smallest entries of
the distance list, sorted ascending), while `match_id` and
`match_confidence` are null and a no-match message is present. -/
theorem unmatched_reports_nearest (ph : Nat) (e : String × Nat)
    (rest : List (String × Nat)) (ids : List String) (pal : List ℤ) (tex : ℚ)
    (r : AnalyzeResponse)
    (h : analyzeModel ph (e :: rest) ids pal tex = Except.ok r)
    (hd : 40 < (bestOf ph e rest).2) :
    r.matched = false ∧
    r.match_id = none ∧
    r.match_confidence_e4 = none ∧
    r.hamming_distance = (bestOf ph e rest).2 ∧
    r.debug_best_match = (bestOf ph e rest).1 ∧
    (∃ p ∈ e :: rest, bestOf ph e rest = (p.1, hamming_distance_int ph p.2)) ∧
    (∀ p ∈ e :: rest, (bestOf ph e rest).2 ≤ hamming_distance_int ph p.2) ∧
    r.debug_top_3 = (sortByDist (distList ph (e :: rest))).take 3 ∧
    r.debug_top_3.length = min 3 (e :: rest).length ∧
    List.Sorted (fun a b : String × Nat => a.2 ≤ b.2) r.debug_top_3 ∧
    (∀ q ∈ r.debug_top_3, q ∈ distList ph (e :: rest)) ∧
    r.message.isSome = true := by
  have hr : r = analyzeResponseOf ph e rest ids pal tex := by
    have h' := h
    simp only [analyzeModel] at h'
    exact (Except.ok.inj h').symm
  subst hr
  have hmat : ¬ (bestOf ph e rest).2 ≤ MAX_DISTANCE := by
    simp only [MAX_DISTANCE]
    omega
  refine ⟨?_, ?_, ?_, rfl, rfl, bestOf_attained ph e rest, bestOf_le ph e rest,
    rfl, ?_, ?_, ?_, ?_⟩
  · simp [analyzeResponseOf, hmat]
  · simp [analyzeResponseOf, hmat]
  · simp [analyzeResponseOf, hmat]
  · show ((sortByDist (distList ph (e :: rest))).take 3).length = _
    rw [List.length_take]
    unfold sortByDist
    rw [(List.perm_insertionSort _ _).length_eq]
    unfold distList
    rw [List.length_map]
  · show List.Sorted _ ((sortByDist (distList ph (e :: rest))).take 3)
    exact List.Pairwise.sublist (List.take_sublist 3 _)
      (List.sorted_insertionSort (fun a b : String × Nat => a.2 ≤ b.2) _)
  · intro q hq
    have hq' : q ∈ sortByDist (distList ph (e :: rest)) := List.take_subset 3 _ hq
    exact (List.perm_insertionSort (fun a b : String × Nat => a.2 ≤ b.2) _).subset hq'
  · simp [analyzeResponseOf, hmat]

/-- Witness for C10 at query 0 against the index `[("a", 2⁴¹ - 1)]`, whose
single entry is at Hamming distance 41 > 40. -/
theorem unmatched_reports_nearest_witness :
    (analyzeModel 0 [("a", 2199023255551)] [] [] 0
        = Except.ok (analyzeResponseOf 0 ("a", 2199023255551) [] [] [] 0) ∧
      40 < (bestOf 0 ("a", 2199023255551) []).2) ∧
    ((analyzeResponseOf 0 ("a", 2199023255551) [] [] [] 0).matched = false ∧
      (analyzeResponseOf 0 ("a", 2199023255551) [] [] [] 0).match_id = none ∧
      (analyzeResponseOf 0 ("a", 2199023255551) [] [] [] 0).match_confidence_e4 = none ∧
      (analyzeResponseOf 0 ("a", 2199023255551) [] [] [] 0).hamming_distance
        = (bestOf 0 ("a", 2199023255551) []).2 ∧
      (analyzeResponseOf 0 ("a", 2199023255551) [] [] [] 0).debug_best_match
        = (bestOf 0 ("a", 2199023255551) []).1 ∧
      (∃ p ∈ [("a", 2199023255551)],
        bestOf 0 ("a", 2199023255551) [] = (p.1, hamming_distance_int 0 p.2)) ∧
      (∀ p ∈ [("a", 2199023255551)],
        (bestOf 0 ("a", 2199023255551) []).2 ≤ hamming_distance_int 0 p.2) ∧
      (analyzeResponseOf 0 ("a", 2199023255551) [] [] [] 0).debug_top_3
        = (sortByDist (distList 0 [("a", 2199023255551)])).take 3 ∧
      (analyzeResponseOf 0 ("a", 2199023255551) [] [] [] 0).debug_top_3.length
        = min 3 [("a", 2199023255551)].length ∧
      List.Sorted (fun a b : String × Nat => a.2 ≤ b.2)
        (analyzeResponseOf 0 ("a", 2199023255551) [] [] [] 0).debug_top_3 ∧
      (∀ q ∈ (analyzeResponseOf 0 ("a", 2199023255551) [] [] [] 0).debug_top_3,
        q ∈ distList 0 [("a", 2199023255551)]) ∧
      (analyzeResponseOf 0 ("a", 2199023255551) [] [] [] 0).message.isSome = true) :=
  ⟨⟨rfl, by decide⟩,
    unmatched_reports_nearest 0 ("a", 2199023255551) [] [] [] 0 _ rfl (by decide)⟩

/-- C7 (failure witness): for a 1024×512 upright image, the canonical buffer
is the 512×256 downscale, and while the fingerprint is computed from it, the
palette and texture extractors receive the raw 1024×512 image, so the
pipeline inputs differ from the spec's "canonical buffer feeds all three"
control flow. -/
theorem feature_inputs_counterexample :
    analyzeFeatureInputs ⟨1024, 512, 1⟩ ≠ specFeatureInputs ⟨1024, 512, 1⟩ ∧
    (analyzeFeatureInputs ⟨1024, 512, 1⟩).1 = (specFeatureInputs ⟨1024, 512, 1⟩).1 ∧
    (analyzeFeatureInputs ⟨1024, 512, 1⟩).2.1 ≠ (specFeatureInputs ⟨1024, 512, 1⟩).2.1 ∧
    (analyzeFeatureInputs ⟨1024, 512, 1⟩).2.2 ≠ (specFeatureInputs ⟨1024, 512, 1⟩).2.2 := by
  refine ⟨?_, rfl, ?_, ?_⟩ <;> decide

theorem div_scale_le (w m : Nat) (hw : w ≤ m) (hm : 0 < m) : w * 512 / m ≤ 512 := by
  have h1 : w * 512 ≤ m * 512 := Nat.mul_le_mul_right 512 hw
  have h2 : w * 512 / m ≤ m * 512 / m := Nat.div_le_div_right h1
  rwa [Nat.mul_div_cancel_left 512 hm] at h2

/-- When the longest side exceeds the cap, preprocessing shrinks it to at
most 512. -/
theorem preprocess_shrinks (img : PILImage) (h : 512 < max img.width img.height) :
    max (preprocess_image_for_matching img 512).width
      (preprocess_image_for_matching img 512).height ≤ 512 := by
  unfold preprocess_image_for_matching exif_transpose
  by_cases ht : 5 ≤ img.exifTag ∧ img.exifTag ≤ 8
  · rw [if_pos ht]
    dsimp only
    have hc : 512 < max img.height img.width := by rw [Nat.max_comm]; exact h
    rw [if_pos hc]
    dsimp only
    have hm : 0 < max img.height img.width := by omega
    exact max_le (div_scale_le _ _ (Nat.le_max_left _ _) hm)
      (div_scale_le _ _ (Nat.le_max_right _ _) hm)
  · rw [if_neg ht]
    dsimp only
    rw [if_pos h]
    dsimp only
    have hm : 0 < max img.width img.height := by omega
    exact max_le (div_scale_le _ _ (Nat.le_max_left _ _) hm)
      (div_scale_le _ _ (Nat.le_max_right _ _) hm)

/-- C7 (amended): the fingerprint is computed from the canonical
(preprocessed) buffer, but the palette and texture descriptors are computed
from the raw decoded image; whenever the image's longest side exceeds the
512 cap (so preprocessing actually rescales), the palette input therefore
differs from the canonical buffer the spec's pipeline prescribes. -/
theorem canonical_buffer_amended (img : PILImage)
    (h : 512 < max img.width img.height) :
    (analyzeFeatureInputs img).1 = preprocess_image_for_matching img 512 ∧
    (analyzeFeatureInputs img).2.1 = img ∧
    (analyzeFeatureInputs img).2.2 = img ∧
    (analyzeFeatureInputs img).2.1 ≠ (specFeatureInputs img).2.1 := by
  refine ⟨rfl, rfl, rfl, ?_⟩
  show img ≠ preprocess_image_for_matching img 512
  intro heq
  have hle := preprocess_shrinks img h
  rw [← heq] at hle
  exact absurd hle (Nat.not_le.mpr h)

/-- Witness for C7 (amended) at the 1024×512 upright image. -/
theorem canonical_buffer_amended_witness :
    512 < max (PILImage.mk 1024 512 1).width (PILImage.mk 1024 512 1).height ∧
    ((analyzeFeatureInputs ⟨1024, 512, 1⟩).1
        = preprocess_image_for_matching ⟨1024, 512, 1⟩ 512 ∧
      (analyzeFeatureInputs ⟨1024, 512, 1⟩).2.1 = ⟨1024, 512, 1⟩ ∧
      (analyzeFeatureInputs ⟨1024, 512, 1⟩).2.2 = ⟨1024, 512, 1⟩ ∧
      (analyzeFeatureInputs ⟨1024, 512, 1⟩).2.1
        ≠ (specFeatureInputs ⟨1024, 512, 1⟩).2.1) :=
  ⟨by decide, canonical_buffer_amended ⟨1024, 512, 1⟩ (by decide)⟩

end RealMetaMuseum
